import Mathlib

/-!
Verification of the SFH-OS numeric simulation core.

This file gives a shallow embedding, over the real numbers, of the
computational core of the SFH-OS repository:

* the fractal profile synthesizers of the geometry MCP server
  (`generateExpansionProfile`, `generateMandelbrotProfile`,
  `computeMandelbrotEscape`, and the `analyze_fractal` dimension
  estimate), and
* the analytic acoustics of the acoustics MCP server
  (`computeImpedanceInline`, `generateFrequencies`, the `polar_response`
  directivity pattern, and the `compare_geometries` ranker).

JavaScript numbers are modelled as real numbers; `Math.round` is modelled
by `jsRound` (floor of x + 1/2, which agrees with `Math.round` on the
non-negative values arising here); the outcome of loading and parsing a
profile file is modelled as an `Option`.
-/

namespace SFH

/-- Speed of sound constant `C_AIR = 343.0` from the acoustics server. -/
noncomputable def C_AIR : ℝ := 343.0

/-- Air density constant `RHO_AIR = 1.21` from the acoustics server. -/
noncomputable def RHO_AIR : ℝ := 1.21

/-- JavaScript `Math.round`: nearest integer, halves rounding up. -/
noncomputable def jsRound (x : ℝ) : ℤ := ⌊x + 1/2⌋

/-- `jsRound` of an integer is that integer. -/
theorem jsRound_intCast (z : ℤ) : jsRound (z : ℝ) = z := by
  unfold jsRound
  rw [Int.floor_eq_iff]
  constructor <;> [skip; push_cast] <;> linarith

/-- `jsRound` is monotone with respect to its real argument. -/
theorem jsRound_mono {x y : ℝ} (h : x ≤ y) : jsRound x ≤ jsRound y :=
  Int.floor_mono (by linarith)

/-- `jsRound` of a nonpositive number is nonpositive. -/
theorem jsRound_nonpos {x : ℝ} (h : x ≤ 0) : jsRound x ≤ 0 := by
  have h0 : jsRound x ≤ jsRound (0 : ℝ) := jsRound_mono h
  have : jsRound (0 : ℝ) = 0 := by
    have := jsRound_intCast 0
    simpa using this
  omega

/-- First element of a map over `List.range (n+1)`. -/
theorem head?_map_range (f : ℕ → α) (n : ℕ) :
    ((List.range (n + 1)).map f).head? = some (f 0) := by
  rw [List.range_succ_eq_map]
  simp

/-- Last element of a map over `List.range (n+1)`. -/
theorem getLast?_map_range (f : ℕ → α) (n : ℕ) :
    ((List.range (n + 1)).map f).getLast? = some (f n) := by
  rw [List.range_succ]
  simp

/-- The two string tags with which the geometry server invokes
`generateExpansionProfile` (`"hilbert"` and `"peano"`; any tag other than
`"hilbert"` selects the power-law branch in the source). -/
inductive CurveType
  | hilbert
  | peano
deriving DecidableEq

/-- Body of the loop of `generateExpansionProfile`: the sample pushed at
index `i`, namely `(z, radius)` with `t = i / points`, `z = length * t`,
and radius a smoothstep blend (`"hilbert"`) or a `t^1.3` power-law blend
(otherwise). -/
noncomputable def expansionSample
    (throat mouth length : ℝ) (points : ℕ) (ty : CurveType) (i : ℕ) : ℝ × ℝ :=
  let t : ℝ := (i : ℝ) / (points : ℝ)
  (length * t,
    match ty with
    | CurveType.hilbert => throat + (mouth - throat) * (3 * t * t - 2 * t * t * t)
    | CurveType.peano => throat + (mouth - throat) * t ^ (1.3 : ℝ))

/-- Embedding of `generateExpansionProfile(throat, mouth, length, points, type)`
from the geometry MCP server: the loop `for (i = 0; i <= points; i++)`
pushes `points + 1` samples. -/
noncomputable def generateExpansionProfile
    (throat mouth length : ℝ) (points : ℕ) (ty : CurveType) : List (ℝ × ℝ) :=
  (List.range (points + 1)).map (expansionSample throat mouth length points ty)

/-- The `profile_points` computed by the `generate_hilbert` tool: it passes the
diameters `throat_diameter_mm` and `mouth_diameter_mm` directly as the
`throat`/`mouth` arguments, with 100 points and type `"hilbert"`. -/
noncomputable def generate_hilbert_profile
    (throat_diameter mouth_diameter length : ℝ) : List (ℝ × ℝ) :=
  generateExpansionProfile throat_diameter mouth_diameter length 100 CurveType.hilbert

/-- The `profile_points` computed by the `generate_peano` tool. -/
noncomputable def generate_peano_profile
    (throat_diameter mouth_diameter length : ℝ) : List (ℝ × ℝ) :=
  generateExpansionProfile throat_diameter mouth_diameter length 100 CurveType.peano

/-- C1. Scenario check at throat diameter 25.4 mm, mouth diameter 300 mm,
length 400 mm, curve-order mode: the code stores the full diameters in the
profile's `radius` field, so the first sample is `(0, 25.4)` — not radius
12.7 as the spec states — and the last sample is `(400, 300)` — not radius
150. The `z` values do span exactly `[0, 400]`. -/
theorem hilbert_scenario_first_last :
    (generate_hilbert_profile 25.4 300 400).head? = some (0, 25.4)
    ∧ (generate_hilbert_profile 25.4 300 400).head? ≠ some (0, 12.7)
    ∧ (generate_hilbert_profile 25.4 300 400).getLast? = some (400, 300)
    ∧ (generate_hilbert_profile 25.4 300 400).getLast? ≠ some (400, 150) := by
  have e1 : (generate_hilbert_profile 25.4 300 400).head? = some (0, 25.4) := by
    rw [generate_hilbert_profile, generateExpansionProfile,
      head?_map_range (expansionSample 25.4 300 400 100 CurveType.hilbert) 100]
    simp only [expansionSample]
    norm_num
  have e2 : (generate_hilbert_profile 25.4 300 400).getLast? = some (400, 300) := by
    rw [generate_hilbert_profile, generateExpansionProfile,
      getLast?_map_range (expansionSample 25.4 300 400 100 CurveType.hilbert) 100]
    simp only [expansionSample]
    norm_num
  refine ⟨e1, ?_, e2, ?_⟩
  · rw [e1]
    intro h
    have := (Option.some.injEq _ _).mp h
    have h2 := congrArg Prod.snd this
    norm_num at h2
  · rw [e2]
    intro h
    have := (Option.some.injEq _ _).mp h
    have h2 := congrArg Prod.snd this
    norm_num at h2

/-- One step of the complex quadratic map `z ↦ z² + c` on coordinates, as in
the loop body of `computeMandelbrotEscape`:
`zRealNew = zReal*zReal - zImag*zImag + cReal`,
`zImagNew = 2*zReal*zImag + cImag`.
Stated over any linear ordered field so that it can be evaluated exactly on
`ℚ` and reasoned about on `ℝ`. -/
def mandelStep {K : Type*} [LinearOrderedField K] (cr ci zr zi : K) : K × K :=
  (zr * zr - zi * zi + cr, 2 * zr * zi + ci)

/-- The orbit `z_0 = 0`, `z_{n+1} = z_n² + c` of the quadratic map. -/
def mandelOrbit {K : Type*} [LinearOrderedField K] (cr ci : K) : ℕ → K × K
  | 0 => (0, 0)
  | n + 1 => mandelStep cr ci (mandelOrbit cr ci n).1 (mandelOrbit cr ci n).2

/-- Squared magnitude `zReal*zReal + zImag*zImag` used in the escape test. -/
def normSq2 {K : Type*} [LinearOrderedField K] (p : K × K) : K :=
  p.1 * p.1 + p.2 * p.2

/-- The loop of `computeMandelbrotEscape`, with the remaining iteration count
as fuel and the loop counter `i` carried explicitly: in each iteration the
next orbit point is computed first and then tested against 4. -/
def escapeAux {K : Type*} [LinearOrderedField K] (cr ci : K) : ℕ → K → K → ℕ → ℕ
  | 0, _, _, i => i
  | fuel + 1, zr, zi, i =>
    let s := mandelStep cr ci zr zi
    if 4 < s.1 * s.1 + s.2 * s.2 then i else escapeAux cr ci fuel s.1 s.2 (i + 1)

/-- Embedding of `computeMandelbrotEscape(cReal, cImag, maxIter)`: run the
loop from `zReal = zImag = 0` with `maxIter` iterations available. -/
def computeMandelbrotEscape {K : Type*} [LinearOrderedField K]
    (cr ci : K) (maxIter : ℕ) : ℕ :=
  escapeAux cr ci maxIter 0 0 0

/-- The orbit never escapes at index 0 (`z_0 = 0`). -/
theorem not_escape_zero {K : Type*} [LinearOrderedField K] (cr ci : K) :
    ¬ 4 < normSq2 (mandelOrbit cr ci 0) := by
  simp only [mandelOrbit, normSq2]
  norm_num

/-- Full characterization of the escape loop: starting at orbit index `n`
with no escape up to `n`, the result `r` satisfies `n ≤ r ≤ n + fuel`, no
orbit point up to index `r` escapes, and if the loop stopped early
(`r < n + fuel`) then the orbit escapes exactly at index `r + 1`. -/
theorem escapeAux_spec {K : Type*} [LinearOrderedField K] (cr ci : K) :
    ∀ (fuel n : ℕ), (∀ m ≤ n, ¬ 4 < normSq2 (mandelOrbit cr ci m)) →
      n ≤ escapeAux cr ci fuel (mandelOrbit cr ci n).1 (mandelOrbit cr ci n).2 n
      ∧ escapeAux cr ci fuel (mandelOrbit cr ci n).1 (mandelOrbit cr ci n).2 n ≤ n + fuel
      ∧ (∀ m ≤ escapeAux cr ci fuel (mandelOrbit cr ci n).1 (mandelOrbit cr ci n).2 n,
          ¬ 4 < normSq2 (mandelOrbit cr ci m))
      ∧ (escapeAux cr ci fuel (mandelOrbit cr ci n).1 (mandelOrbit cr ci n).2 n < n + fuel →
          4 < normSq2 (mandelOrbit cr ci
            (escapeAux cr ci fuel (mandelOrbit cr ci n).1 (mandelOrbit cr ci n).2 n + 1))) := by
  intro fuel
  induction fuel with
  | zero =>
    intro n hprev
    simp only [escapeAux]
    exact ⟨le_refl n, by omega, hprev, by omega⟩
  | succ f ih =>
    intro n hprev
    have hs : mandelStep cr ci (mandelOrbit cr ci n).1 (mandelOrbit cr ci n).2
        = mandelOrbit cr ci (n + 1) := rfl
    by_cases hesc : 4 < normSq2 (mandelOrbit cr ci (n + 1))
    · have hcond : 4 < (mandelStep cr ci (mandelOrbit cr ci n).1 (mandelOrbit cr ci n).2).1 *
          (mandelStep cr ci (mandelOrbit cr ci n).1 (mandelOrbit cr ci n).2).1 +
          (mandelStep cr ci (mandelOrbit cr ci n).1 (mandelOrbit cr ci n).2).2 *
          (mandelStep cr ci (mandelOrbit cr ci n).1 (mandelOrbit cr ci n).2).2 := by
        rw [hs]; exact hesc
      simp only [escapeAux, if_pos hcond]
      exact ⟨le_refl n, by omega, hprev, fun _ => hesc⟩
    · have hcond : ¬ 4 < (mandelStep cr ci (mandelOrbit cr ci n).1 (mandelOrbit cr ci n).2).1 *
          (mandelStep cr ci (mandelOrbit cr ci n).1 (mandelOrbit cr ci n).2).1 +
          (mandelStep cr ci (mandelOrbit cr ci n).1 (mandelOrbit cr ci n).2).2 *
          (mandelStep cr ci (mandelOrbit cr ci n).1 (mandelOrbit cr ci n).2).2 := by
        rw [hs]; exact hesc
      have hprev' : ∀ m ≤ n + 1, ¬ 4 < normSq2 (mandelOrbit cr ci m) := by
        intro m hm
        rcases Nat.lt_or_ge m (n + 1) with h | h
        · exact hprev m (by omega)
        · have : m = n + 1 := by omega
          rw [this]; exact hesc
      have hrec := ih (n + 1) hprev'
      simp only [escapeAux, if_neg hcond]
      have harg : (mandelStep cr ci (mandelOrbit cr ci n).1 (mandelOrbit cr ci n).2).1
          = (mandelOrbit cr ci (n + 1)).1 := by rw [hs]
      have harg2 : (mandelStep cr ci (mandelOrbit cr ci n).1 (mandelOrbit cr ci n).2).2
          = (mandelOrbit cr ci (n + 1)).2 := by rw [hs]
      rw [harg, harg2]
      exact ⟨by omega, by omega, hrec.2.2.1, fun h => hrec.2.2.2 (by omega)⟩

/-- The escape count never exceeds the iteration budget. -/
theorem computeMandelbrotEscape_le {K : Type*} [LinearOrderedField K]
    (cr ci : K) (N : ℕ) : computeMandelbrotEscape cr ci N ≤ N := by
  have h := escapeAux_spec cr ci N 0 (by
    intro m hm
    have : m = 0 := by omega
    rw [this]; exact not_escape_zero cr ci)
  simpa [computeMandelbrotEscape, mandelOrbit] using h.2.1

/-- C4 (amended). The escape sampler terminates and returns one less than
the first orbit index `n ≥ 1` at which `|z_n|² > 4` — i.e. the number of
completed non-escaping iterations — or `N` when no orbit point escapes
within `N` iterations; the result always lies in `[0, N]`. -/
theorem computeMandelbrotEscape_spec (cr ci : ℝ) (N : ℕ)
    (_hN1 : 10 ≤ N) (_hN2 : N ≤ 1000) :
    computeMandelbrotEscape cr ci N ≤ N
    ∧ (∀ m ≤ computeMandelbrotEscape cr ci N, ¬ 4 < normSq2 (mandelOrbit cr ci m))
    ∧ (computeMandelbrotEscape cr ci N < N →
        4 < normSq2 (mandelOrbit cr ci (computeMandelbrotEscape cr ci N + 1))) := by
  have h := escapeAux_spec cr ci N 0 (by
    intro m hm
    have : m = 0 := by omega
    rw [this]; exact not_escape_zero cr ci)
  have he : escapeAux cr ci N (mandelOrbit cr ci 0).1 (mandelOrbit cr ci 0).2 0
      = computeMandelbrotEscape cr ci N := by
    simp [computeMandelbrotEscape, mandelOrbit]
  rw [he] at h
  exact ⟨by simpa using h.2.1, h.2.2.1, fun hlt => h.2.2.2 (by omega)⟩

/-- Witness for C4's theorem at `c = 3`, `N = 10`, instantiated at orbit
index 0. -/
theorem computeMandelbrotEscape_spec_witness :
    computeMandelbrotEscape (3 : ℝ) 0 10 ≤ 10
    ∧ ¬ 4 < normSq2 (mandelOrbit (3 : ℝ) 0 0) :=
  ⟨(computeMandelbrotEscape_spec 3 0 10 (by norm_num) (by norm_num)).1,
    (computeMandelbrotEscape_spec 3 0 10 (by norm_num) (by norm_num)).2.1 0 (Nat.zero_le _)⟩

/-- C4 counterexample to the claim as stated: with `c = 3` and `N = 10`
the code returns 0, yet the orbit does not satisfy `|z_0|² > 4` (the first
escaping orbit index is 1), so the returned value is not the orbit index at
which the escape condition first holds. -/
theorem computeMandelbrotEscape_off_by_one :
    computeMandelbrotEscape (3 : ℚ) 0 10 = 0
    ∧ ¬ 4 < normSq2 (mandelOrbit (3 : ℚ) 0 0)
    ∧ 4 < normSq2 (mandelOrbit (3 : ℚ) 0 1) := by
  refine ⟨?_, ?_, ?_⟩
  · norm_num [computeMandelbrotEscape, escapeAux, mandelStep]
  · norm_num [mandelOrbit, normSq2]
  · norm_num [mandelOrbit, mandelStep, normSq2]

/-- Body of the loop of `generateMandelbrotProfile`: the sample pushed at
index `i` (with the internal constant `points = 100`): `t = i / 100`, a
Mandelbrot escape sample at `c + 0.1·(cos θ, sin θ)` with `θ = 2πt`,
`fractal_detail = escape / iterations`, a `t^1.2` power-law base radius,
and modulation `1 + 0.05·fractal_detail·sin(20t)`. -/
noncomputable def mandelbrotSample
    (cReal cImag throat mouth length : ℝ) (iterations : ℕ) (i : ℕ) : ℝ × ℝ × ℝ :=
  let t : ℝ := (i : ℝ) / 100
  let angle := t * Real.pi * 2
  let escape := computeMandelbrotEscape
    (cReal + 0.1 * Real.cos angle) (cImag + 0.1 * Real.sin angle) iterations
  let fractalDetail : ℝ := (escape : ℝ) / (iterations : ℝ)
  let baseRadius := throat + (mouth - throat) * t ^ (1.2 : ℝ)
  let modulation := 1 + 0.05 * fractalDetail * Real.sin (t * 20)
  (length * t, baseRadius * modulation, fractalDetail)

/-- Embedding of `generateMandelbrotProfile(cReal, cImag, throat, mouth,
length, iterations)`: 101 samples `(z, radius, fractal_detail)`. -/
noncomputable def generateMandelbrotProfile
    (cReal cImag throat mouth length : ℝ) (iterations : ℕ) : List (ℝ × ℝ × ℝ) :=
  (List.range 101).map (mandelbrotSample cReal cImag throat mouth length iterations)

/-- The smoothstep `3t² - 2t³` maps `[0,1]` into `[0,1]`. -/
theorem smoothstep_bounds {t : ℝ} (h0 : 0 ≤ t) (h1 : t ≤ 1) :
    0 ≤ 3 * t * t - 2 * t * t * t ∧ 3 * t * t - 2 * t * t * t ≤ 1 := by
  constructor <;> nlinarith [sq_nonneg t, sq_nonneg (1 - t)]

/-- A blend `a + (b - a)·s` of two positive endpoints with `s ∈ [0,1]` is
positive. -/
theorem blend_pos {a b s : ℝ} (ha : 0 < a) (hb : 0 < b) (h0 : 0 ≤ s) (h1 : s ≤ 1) :
    0 < a + (b - a) * s := by
  have key : a + (b - a) * s = a * (1 - s) + b * s := by ring
  rcases eq_or_lt_of_le h1 with h | h
  · have hbs : a + (b - a) * s = b := by rw [h]; ring
    linarith
  · have h1s : (0 : ℝ) < 1 - s := by linarith
    have hpos := mul_pos ha h1s
    have hnn := mul_nonneg (le_of_lt hb) h0
    linarith

/-- The even axial grid `length · i / 100`, `i = 0, …, 100`, over which all
profile generators place their samples. -/
noncomputable def zGrid (length : ℝ) : List ℝ :=
  (List.range 101).map (fun i : ℕ => length * (i : ℝ) / 100)

/-- The `z` values of `generateExpansionProfile` with 100 points are
`length · i / 100` in order. -/
theorem expansionProfile_z (throat mouth length : ℝ) (ty : CurveType) :
    (generateExpansionProfile throat mouth length 100 ty).map Prod.fst
      = zGrid length := by
  unfold generateExpansionProfile zGrid
  rw [List.map_map]
  refine List.map_congr_left ?_
  intro i _
  simp only [Function.comp, expansionSample]
  push_cast
  ring

/-- The `z` values of `generateMandelbrotProfile` are `length · i / 100` in
order. -/
theorem mandelbrotProfile_z (cReal cImag throat mouth length : ℝ) (iterations : ℕ) :
    (generateMandelbrotProfile cReal cImag throat mouth length iterations).map Prod.fst
      = zGrid length := by
  unfold generateMandelbrotProfile zGrid
  rw [List.map_map]
  refine List.map_congr_left ?_
  intro i _
  simp only [Function.comp, mandelbrotSample]
  ring

/-- The evenly spaced list `length · i / 100`, `i = 0, …, 100`, is strictly
increasing when `length > 0`. -/
theorem z_values_pairwise {length : ℝ} (hl : 0 < length) :
    (zGrid length).Pairwise (· < ·) := by
  unfold zGrid
  refine List.pairwise_map.mpr ?_
  refine (List.pairwise_lt_range 101).imp ?_
  intro a b hab
  have hcast : (a : ℝ) < (b : ℝ) := by exact_mod_cast hab
  have := mul_pos hl (sub_pos.mpr hcast)
  nlinarith

/-- `t = i / 100` lies in `[0, 1]` for `i ≤ 100`. -/
theorem t_mem_unit {i : ℕ} (h : i ≤ 100) :
    0 ≤ (i : ℝ) / 100 ∧ (i : ℝ) / 100 ≤ 1 := by
  constructor
  · positivity
  · have : (i : ℝ) ≤ 100 := by exact_mod_cast h
    linarith

/-- C3. In all three generation modes, for any valid parameters, the
synthesized profile has exactly 101 samples, `z` values `length·i/100`
(evenly spaced), strictly increasing from `0` to `length`, and strictly
positive radii. (The order and iteration parameters of the curve modes do
not enter the sampled profile; the Mandelbrot iteration budget does.) -/
theorem profile_invariants
    (throat mouth length : ℝ) (ht : 0 < throat) (hm : 0 < mouth) (hl : 0 < length)
    (order iterations mandelIter : ℕ)
    (_ho1 : 1 ≤ order) (_ho2 : order ≤ 6)
    (_hi1 : 1 ≤ iterations) (_hi2 : iterations ≤ 5)
    (hb1 : 10 ≤ mandelIter) (_hb2 : mandelIter ≤ 1000) (cr ci : ℝ) :
    (∀ ty : CurveType,
      (generateExpansionProfile throat mouth length 100 ty).length = 101
      ∧ (generateExpansionProfile throat mouth length 100 ty).map Prod.fst
          = zGrid length
      ∧ ((generateExpansionProfile throat mouth length 100 ty).map Prod.fst).Pairwise (· < ·)
      ∧ (generateExpansionProfile throat mouth length 100 ty).head?.map Prod.fst = some 0
      ∧ (generateExpansionProfile throat mouth length 100 ty).getLast?.map Prod.fst = some length
      ∧ ∀ p ∈ generateExpansionProfile throat mouth length 100 ty, 0 < p.2)
    ∧ ((generateMandelbrotProfile cr ci throat mouth length mandelIter).length = 101
      ∧ (generateMandelbrotProfile cr ci throat mouth length mandelIter).map Prod.fst
          = zGrid length
      ∧ ((generateMandelbrotProfile cr ci throat mouth length mandelIter).map
          Prod.fst).Pairwise (· < ·)
      ∧ (generateMandelbrotProfile cr ci throat mouth length mandelIter).head?.map
          Prod.fst = some 0
      ∧ (generateMandelbrotProfile cr ci throat mouth length mandelIter).getLast?.map
          Prod.fst = some length
      ∧ ∀ p ∈ generateMandelbrotProfile cr ci throat mouth length mandelIter, 0 < p.2.1) := by
  constructor
  · intro ty
    refine ⟨?_, expansionProfile_z throat mouth length ty, ?_, ?_, ?_, ?_⟩
    · simp [generateExpansionProfile]
    · rw [expansionProfile_z]
      exact z_values_pairwise hl
    · rw [generateExpansionProfile, head?_map_range]
      simp [expansionSample]
    · rw [generateExpansionProfile, getLast?_map_range]
      simp [expansionSample]
    · intro p hp
      rw [generateExpansionProfile] at hp
      obtain ⟨i, hi, rfl⟩ := List.mem_map.mp hp
      have hi' : i ≤ 100 := by
        have := List.mem_range.mp hi
        omega
      obtain ⟨ht0, ht1⟩ := t_mem_unit hi'
      cases ty with
      | hilbert =>
        simp only [expansionSample]
        obtain ⟨hs0, hs1⟩ := smoothstep_bounds ht0 ht1
        exact blend_pos ht hm hs0 hs1
      | peano =>
        simp only [expansionSample]
        exact blend_pos ht hm (Real.rpow_nonneg ht0 _)
          (Real.rpow_le_one ht0 ht1 (by norm_num))
  · refine ⟨?_, mandelbrotProfile_z cr ci throat mouth length mandelIter, ?_, ?_, ?_, ?_⟩
    · simp [generateMandelbrotProfile]
    · rw [mandelbrotProfile_z]
      exact z_values_pairwise hl
    · rw [generateMandelbrotProfile,
        show (101 : ℕ) = 100 + 1 from rfl, head?_map_range]
      simp [mandelbrotSample]
    · rw [generateMandelbrotProfile,
        show (101 : ℕ) = 100 + 1 from rfl, getLast?_map_range]
      simp [mandelbrotSample]
    · intro p hp
      rw [generateMandelbrotProfile] at hp
      obtain ⟨i, hi, rfl⟩ := List.mem_map.mp hp
      have hi' : i ≤ 100 := by
        have := List.mem_range.mp hi
        omega
      obtain ⟨ht0, ht1⟩ := t_mem_unit hi'
      simp only [mandelbrotSample]
      have hbase : 0 < throat + (mouth - throat) * ((i : ℝ) / 100) ^ (1.2 : ℝ) :=
        blend_pos ht hm (Real.rpow_nonneg ht0 _) (Real.rpow_le_one ht0 ht1 (by norm_num))
      have hiterpos : (0 : ℝ) < (mandelIter : ℝ) := by
        have : 0 < mandelIter := by omega
        exact_mod_cast this
      have hdet0 : (0 : ℝ) ≤ (computeMandelbrotEscape
          (cr + 0.1 * Real.cos ((i : ℝ) / 100 * Real.pi * 2))
          (ci + 0.1 * Real.sin ((i : ℝ) / 100 * Real.pi * 2)) mandelIter : ℝ)
          / (mandelIter : ℝ) :=
        div_nonneg (Nat.cast_nonneg _) (le_of_lt hiterpos)
      have hdet1 : (computeMandelbrotEscape
          (cr + 0.1 * Real.cos ((i : ℝ) / 100 * Real.pi * 2))
          (ci + 0.1 * Real.sin ((i : ℝ) / 100 * Real.pi * 2)) mandelIter : ℝ)
          / (mandelIter : ℝ) ≤ 1 := by
        rw [div_le_one hiterpos]
        exact Nat.cast_le.mpr (computeMandelbrotEscape_le (K := ℝ) _ _ mandelIter)
      have hsin1 : Real.sin ((i : ℝ) / 100 * 20) ≤ 1 := Real.sin_le_one _
      have hsin2 : -1 ≤ Real.sin ((i : ℝ) / 100 * 20) := Real.neg_one_le_sin _
      have hmod : 0 < 1 + 0.05 * ((computeMandelbrotEscape
          (cr + 0.1 * Real.cos ((i : ℝ) / 100 * Real.pi * 2))
          (ci + 0.1 * Real.sin ((i : ℝ) / 100 * Real.pi * 2)) mandelIter : ℝ)
          / (mandelIter : ℝ)) * Real.sin ((i : ℝ) / 100 * 20) := by
        nlinarith
      exact mul_pos hbase hmod

/-- Witness for C3 at throat 1, mouth 2, length 3, order 1, iterations 1,
Mandelbrot budget 10, `c = 0`, instantiated at the curve modes and at the
first sample of the curve-order profile. -/
theorem profile_invariants_witness :
    (generateExpansionProfile 1 2 3 100 CurveType.hilbert).map Prod.fst = zGrid 3
    ∧ ((generateExpansionProfile 1 2 3 100 CurveType.peano).map Prod.fst).Pairwise (· < ·)
    ∧ (generateMandelbrotProfile 0 0 1 2 3 10).length = 101
    ∧ (generateMandelbrotProfile 0 0 1 2 3 10).getLast?.map Prod.fst = some 3
    ∧ 0 < (expansionSample 1 2 3 100 CurveType.hilbert 0).2 := by
  have h := profile_invariants 1 2 3 (by norm_num) (by norm_num) (by norm_num)
    1 1 10 (by norm_num) (by norm_num) (by norm_num) (by norm_num)
    (by norm_num) (by norm_num) 0 0
  refine ⟨(h.1 CurveType.hilbert).2.1, (h.1 CurveType.peano).2.2.1, h.2.1,
    h.2.2.2.2.2.1, ?_⟩
  refine (h.1 CurveType.hilbert).2.2.2.2.2 (expansionSample 1 2 3 100 CurveType.hilbert 0) ?_
  unfold generateExpansionProfile
  exact List.mem_map_of_mem _ (List.mem_range.mpr (by norm_num))

/-- Mouth radius in metres: `profile[profile.length - 1].radius / 1000`
(defaulting to 0 on an empty profile, which the source would reject at
runtime). -/
noncomputable def mouthRadiusOf (profile : List (ℝ × ℝ)) : ℝ :=
  ((profile.getLast?.map Prod.snd).getD 0) / 1000

/-- Throat radius in metres: `profile[0].radius / 1000`. -/
noncomputable def throatRadiusOf (profile : List (ℝ × ℝ)) : ℝ :=
  ((profile.head?.map Prod.snd).getD 0) / 1000

/-- Horn length in metres: `profile[profile.length - 1].z / 1000`. -/
noncomputable def hornLengthOf (profile : List (ℝ × ℝ)) : ℝ :=
  ((profile.getLast?.map Prod.fst).getD 0) / 1000

/-- Radiation impedance at the mouth, per frequency, from
`computeImpedanceInline` (two-regime piston approximation; the source
computes it and then never uses it in the throat transformation). -/
noncomputable def mouthRadiationImpedance (mouthRadius freq : ℝ) : ℝ × ℝ :=
  let k := 2 * Real.pi * freq / C_AIR
  let ka := k * mouthRadius
  if ka < 2 then
    (RHO_AIR * C_AIR * Real.pi * mouthRadius ^ 2 * ka ^ 2 / 2,
     RHO_AIR * C_AIR * Real.pi * mouthRadius ^ 2 * (8 * ka) / (3 * Real.pi))
  else
    (RHO_AIR * C_AIR * Real.pi * mouthRadius ^ 2, 0)

/-- Horn cutoff frequency from `computeImpedanceInline`:
`fc = C_AIR · (log((mouthRadius/throatRadius)²) / length) / (2π)`. -/
noncomputable def cutoffFrequency (mouthRadius throatRadius lengthM : ℝ) : ℝ :=
  C_AIR * (Real.log ((mouthRadius / throatRadius) ^ 2) / lengthM) / (2 * Real.pi)

/-- Throat impedance (real, imaginary) at one frequency from
`computeImpedanceInline`: above cutoff a propagating branch with
transmission `sqrt(1 - (fc/f)²)`, at or below cutoff a reactive branch with
evanescent factor `sqrt((fc/f)² - 1)`. -/
noncomputable def zThroatPair (mouthRadius throatRadius lengthM freq : ℝ) : ℝ × ℝ :=
  let throatArea := Real.pi * throatRadius ^ 2
  let fc := cutoffFrequency mouthRadius throatRadius lengthM
  if fc < freq then
    (RHO_AIR * C_AIR * throatArea * Real.sqrt (1 - (fc / freq) ^ 2),
     RHO_AIR * C_AIR * throatArea * (fc / freq) * 0.5)
  else
    (RHO_AIR * C_AIR * throatArea * 0.1,
     RHO_AIR * C_AIR * throatArea * Real.sqrt ((fc / freq) ^ 2 - 1))

/-- Magnitude `sqrt(re² + im²)` of the throat impedance at one frequency. -/
noncomputable def throatImpedanceMagnitude (mouthRadius throatRadius lengthM freq : ℝ) : ℝ :=
  Real.sqrt ((zThroatPair mouthRadius throatRadius lengthM freq).1 ^ 2
    + (zThroatPair mouthRadius throatRadius lengthM freq).2 ^ 2)

/-- Reflection coefficient magnitude at one frequency:
`|Γ| = |(zNorm - 1)/(zNorm + 1)|` with `zNorm` the impedance magnitude
normalized by `RHO_AIR · C_AIR · throatArea`. -/
noncomputable def reflectionCoefficient (mouthRadius throatRadius lengthM freq : ℝ) : ℝ :=
  let magnitude := throatImpedanceMagnitude mouthRadius throatRadius lengthM freq
  let zNormalized := magnitude / (RHO_AIR * C_AIR * (Real.pi * throatRadius ^ 2))
  |(zNormalized - 1) / (zNormalized + 1)|

/-- The parallel result arrays of `computeImpedanceInline`. -/
structure ImpedanceResult where
  frequencies_hz : List ℝ
  impedance_real : List ℝ
  impedance_imag : List ℝ
  impedance_magnitude : List ℝ
  reflection_coefficient : List ℝ

/-- Embedding of `computeImpedanceInline(profile, frequencies)`: per-frequency
throat impedance and reflection coefficient. The only profile data it reads
are `profile[0].radius`, `profile[length-1].radius` and
`profile[length-1].z` (the mouth radiation impedance of the source is
computed but unused, see `mouthRadiationImpedance`). -/
noncomputable def computeImpedanceInline
    (profile : List (ℝ × ℝ)) (frequencies : List ℝ) : ImpedanceResult :=
  let mouthRadius := mouthRadiusOf profile
  let throatRadius := throatRadiusOf profile
  let lengthM := hornLengthOf profile
  { frequencies_hz := frequencies
    impedance_real :=
      frequencies.map fun f => (zThroatPair mouthRadius throatRadius lengthM f).1
    impedance_imag :=
      frequencies.map fun f => (zThroatPair mouthRadius throatRadius lengthM f).2
    impedance_magnitude :=
      frequencies.map fun f => throatImpedanceMagnitude mouthRadius throatRadius lengthM f
    reflection_coefficient :=
      frequencies.map fun f => reflectionCoefficient mouthRadius throatRadius lengthM f }

/-- The normalizing constant `RHO_AIR · C_AIR · throatArea` is positive for
a positive throat radius. -/
theorem normConst_pos {throatRadius : ℝ} (h : 0 < throatRadius) :
    0 < RHO_AIR * C_AIR * (Real.pi * throatRadius ^ 2) := by
  unfold RHO_AIR C_AIR
  positivity

/-- The reflection coefficient at any single frequency lies in `[0, 1]`
whenever the throat radius is positive. -/
theorem reflectionCoefficient_bounds (mouthRadius throatRadius lengthM freq : ℝ)
    (h : 0 < throatRadius) :
    0 ≤ reflectionCoefficient mouthRadius throatRadius lengthM freq
    ∧ reflectionCoefficient mouthRadius throatRadius lengthM freq ≤ 1 := by
  unfold reflectionCoefficient
  set m := throatImpedanceMagnitude mouthRadius throatRadius lengthM freq with hm
  have hm0 : 0 ≤ m := Real.sqrt_nonneg _
  set z := m / (RHO_AIR * C_AIR * (Real.pi * throatRadius ^ 2)) with hzdef
  have hz0 : 0 ≤ z := div_nonneg hm0 (le_of_lt (normConst_pos h))
  refine ⟨abs_nonneg _, ?_⟩
  rw [abs_div]
  have hz1 : |z + 1| = z + 1 := abs_of_pos (by linarith)
  rw [hz1, div_le_one (by linarith)]
  rw [abs_le]
  constructor <;> linarith

/-- C2. For a non-empty profile with positive radii (and positive mouth z),
every reflection-coefficient entry produced by `computeImpedanceInline`
lies in `[0, 1]`. -/
theorem reflection_bounded (profile : List (ℝ × ℝ)) (freqs : List ℝ)
    (hne : profile ≠ []) (hpos : ∀ p ∈ profile, 0 < p.2)
    (_hz : 0 < (profile.getLast?.map Prod.fst).getD 0) :
    ∀ r ∈ (computeImpedanceInline profile freqs).reflection_coefficient,
      0 ≤ r ∧ r ≤ 1 := by
  have hth : 0 < throatRadiusOf profile := by
    cases profile with
    | nil => exact absurd rfl hne
    | cons a l =>
      have ha := hpos a (List.mem_cons_self a l)
      simp only [throatRadiusOf, List.head?_cons, Option.map_some, Option.getD_some]
      positivity
  intro r hr
  simp only [computeImpedanceInline] at hr
  obtain ⟨f, _, rfl⟩ := List.mem_map.mp hr
  exact reflectionCoefficient_bounds _ _ _ f hth

/-- Witness for C2 at the profile `[(0,10), (400,100)]` with sweep `[1000]`,
instantiated at the single produced reflection entry. -/
theorem reflection_bounded_witness :
    0 ≤ reflectionCoefficient (mouthRadiusOf [((0 : ℝ), (10 : ℝ)), (400, 100)])
        (throatRadiusOf [((0 : ℝ), (10 : ℝ)), (400, 100)])
        (hornLengthOf [((0 : ℝ), (10 : ℝ)), (400, 100)]) 1000
    ∧ reflectionCoefficient (mouthRadiusOf [((0 : ℝ), (10 : ℝ)), (400, 100)])
        (throatRadiusOf [((0 : ℝ), (10 : ℝ)), (400, 100)])
        (hornLengthOf [((0 : ℝ), (10 : ℝ)), (400, 100)]) 1000 ≤ 1 :=
  reflection_bounded [((0 : ℝ), (10 : ℝ)), (400, 100)] [1000]
    (by simp)
    (by intro p hp; fin_cases hp <;> norm_num)
    (by simp)
    (reflectionCoefficient (mouthRadiusOf [((0 : ℝ), (10 : ℝ)), (400, 100)])
      (throatRadiusOf [((0 : ℝ), (10 : ℝ)), (400, 100)])
      (hornLengthOf [((0 : ℝ), (10 : ℝ)), (400, 100)]) 1000)
    (by simp [computeImpedanceInline])

/-- C9. `computeImpedanceInline` reads only the first and last profile
samples: two non-empty profiles agreeing on those produce identical
results for any frequency list. -/
theorem impedance_head_last_only (p q : List (ℝ × ℝ)) (freqs : List ℝ)
    (_h1 : p ≠ []) (_h2 : q ≠ [])
    (hhead : p.head? = q.head?) (hlast : p.getLast? = q.getLast?) :
    computeImpedanceInline p freqs = computeImpedanceInline q freqs := by
  unfold computeImpedanceInline mouthRadiusOf throatRadiusOf hornLengthOf
  rw [hhead, hlast]

/-- Witness for C9: two profiles differing in all interior samples but
agreeing at throat and mouth give identical impedance results. -/
theorem impedance_head_last_only_witness :
    computeImpedanceInline [((0 : ℝ), (10 : ℝ)), (200, 37), (400, 100)] [1000, 2000]
      = computeImpedanceInline
          [((0 : ℝ), (10 : ℝ)), (123, 55), (399, 77), (400, 100)] [1000, 2000] :=
  impedance_head_last_only _ _ _ (by simp) (by simp) (by simp) (by simp)

/-- The cutoff frequency is positive for an expanding horn
(`0 < throatRadius < mouthRadius`, positive length). -/
theorem cutoffFrequency_pos {mouthR throatR lengthM : ℝ}
    (h1 : 0 < throatR) (h2 : throatR < mouthR) (h3 : 0 < lengthM) :
    0 < cutoffFrequency mouthR throatR lengthM := by
  unfold cutoffFrequency C_AIR
  have hrat : 1 < mouthR / throatR := (one_lt_div h1).mpr h2
  have hsq : 1 < (mouthR / throatR) ^ 2 := one_lt_pow₀ hrat (by norm_num)
  have hlog : 0 < Real.log ((mouthR / throatR) ^ 2) := Real.log_pos hsq
  have hpi : (0 : ℝ) < 2 * Real.pi := by positivity
  exact div_pos (mul_pos (by norm_num) (div_pos hlog h3)) hpi

/-- At `f = fc` the source takes the at/below-cutoff branch, whose
evanescent factor vanishes, so the impedance magnitude is exactly
`0.1 · RHO_AIR · C_AIR · throatArea`. -/
theorem throatImpedanceMagnitude_at_cutoff {mouthR throatR lengthM : ℝ}
    (h1 : 0 < throatR) (h2 : throatR < mouthR) (h3 : 0 < lengthM) :
    throatImpedanceMagnitude mouthR throatR lengthM
        (cutoffFrequency mouthR throatR lengthM)
      = 0.1 * (RHO_AIR * C_AIR * (Real.pi * throatR ^ 2)) := by
  have hfc : 0 < cutoffFrequency mouthR throatR lengthM :=
    cutoffFrequency_pos h1 h2 h3
  unfold throatImpedanceMagnitude zThroatPair
  rw [if_neg (lt_irrefl _), div_self (ne_of_gt hfc)]
  rw [show ((1 : ℝ)) ^ 2 - 1 = 0 from by norm_num, Real.sqrt_zero, mul_zero]
  rw [show (RHO_AIR * C_AIR * (Real.pi * throatR ^ 2) * 0.1) ^ 2 + (0 : ℝ) ^ 2
      = (0.1 * (RHO_AIR * C_AIR * (Real.pi * throatR ^ 2))) ^ 2 from by ring]
  exact Real.sqrt_sq (by linarith [normConst_pos h1])

/-- As `f → fc` from above, the above-cutoff branch's impedance magnitude
tends to `0.5 · RHO_AIR · C_AIR · throatArea` (its transmission term
vanishes while the reactive term tends to `0.5`). -/
theorem throatImpedanceMagnitude_tendsto_above {mouthR throatR lengthM : ℝ}
    (h1 : 0 < throatR) (h2 : throatR < mouthR) (h3 : 0 < lengthM) :
    Filter.Tendsto (fun f => throatImpedanceMagnitude mouthR throatR lengthM f)
      (nhdsWithin (cutoffFrequency mouthR throatR lengthM)
        (Set.Ioi (cutoffFrequency mouthR throatR lengthM)))
      (nhds (0.5 * (RHO_AIR * C_AIR * (Real.pi * throatR ^ 2)))) := by
  set K := RHO_AIR * C_AIR * (Real.pi * throatR ^ 2) with hK
  set fc := cutoffFrequency mouthR throatR lengthM with hfcdef
  have hfc : 0 < fc := cutoffFrequency_pos h1 h2 h3
  set g : ℝ → ℝ := fun f =>
    Real.sqrt ((K * Real.sqrt (1 - (fc / f) ^ 2)) ^ 2 + (K * (fc / f) * 0.5) ^ 2)
    with hgdef
  have hratio : ContinuousAt (fun f : ℝ => fc / f) fc :=
    ContinuousAt.div continuousAt_const continuousAt_id (ne_of_gt hfc)
  have hcont : ContinuousAt g fc := by
    apply ContinuousAt.comp Real.continuous_sqrt.continuousAt
    apply ContinuousAt.add
    · exact ((continuousAt_const.mul
        (ContinuousAt.comp Real.continuous_sqrt.continuousAt
          (continuousAt_const.sub (hratio.pow 2)))).pow 2)
    · exact ((continuousAt_const.mul hratio).mul continuousAt_const).pow 2
  have hval : g fc = 0.5 * K := by
    have hKpos : 0 < K := normConst_pos h1
    simp only [hgdef]
    rw [div_self (ne_of_gt hfc)]
    norm_num
    rw [show (K * (1 / 2) : ℝ) ^ 2 = ((1 / 2 : ℝ) * K) ^ 2 from by ring]
    exact Real.sqrt_sq (by linarith [hKpos])
  have htend : Filter.Tendsto g (nhdsWithin fc (Set.Ioi fc)) (nhds (0.5 * K)) := by
    rw [← hval]
    exact (hcont.tendsto).mono_left nhdsWithin_le_nhds
  refine Filter.Tendsto.congr' ?_ htend
  filter_upwards [self_mem_nhdsWithin] with f hf
  have hlt : fc < f := hf
  simp only [throatImpedanceMagnitude, zThroatPair, hgdef]
  rw [if_pos hlt]

/-- C5 (amended). The two branch values of the impedance transformation do
not agree at the cutoff: approaching `fc` from above, the magnitude tends
to `0.5·ρ·c·A_throat`, while at (and approaching from) `fc` the at/below-
cutoff branch gives `0.1·ρ·c·A_throat`; the two values differ, so the
sweep has a discontinuous jump at the cutoff. -/
theorem impedance_jump_at_cutoff (mouthR throatR lengthM : ℝ)
    (h1 : 0 < throatR) (h2 : throatR < mouthR) (h3 : 0 < lengthM) :
    Filter.Tendsto (fun f => throatImpedanceMagnitude mouthR throatR lengthM f)
      (nhdsWithin (cutoffFrequency mouthR throatR lengthM)
        (Set.Ioi (cutoffFrequency mouthR throatR lengthM)))
      (nhds (0.5 * (RHO_AIR * C_AIR * (Real.pi * throatR ^ 2))))
    ∧ throatImpedanceMagnitude mouthR throatR lengthM
        (cutoffFrequency mouthR throatR lengthM)
      = 0.1 * (RHO_AIR * C_AIR * (Real.pi * throatR ^ 2))
    ∧ 0.5 * (RHO_AIR * C_AIR * (Real.pi * throatR ^ 2))
      ≠ 0.1 * (RHO_AIR * C_AIR * (Real.pi * throatR ^ 2)) := by
  refine ⟨throatImpedanceMagnitude_tendsto_above h1 h2 h3,
    throatImpedanceMagnitude_at_cutoff h1 h2 h3, ?_⟩
  have hKpos : 0 < RHO_AIR * C_AIR * (Real.pi * throatR ^ 2) := normConst_pos h1
  intro h
  nlinarith

/-- Witness for C5's amended theorem at mouth radius 0.1 m, throat radius
0.01 m, length 0.4 m. -/
theorem impedance_jump_at_cutoff_witness :
    Filter.Tendsto (fun f => throatImpedanceMagnitude 0.1 0.01 0.4 f)
      (nhdsWithin (cutoffFrequency 0.1 0.01 0.4)
        (Set.Ioi (cutoffFrequency 0.1 0.01 0.4)))
      (nhds (0.5 * (RHO_AIR * C_AIR * (Real.pi * (0.01 : ℝ) ^ 2))))
    ∧ throatImpedanceMagnitude 0.1 0.01 0.4 (cutoffFrequency 0.1 0.01 0.4)
      = 0.1 * (RHO_AIR * C_AIR * (Real.pi * (0.01 : ℝ) ^ 2))
    ∧ 0.5 * (RHO_AIR * C_AIR * (Real.pi * (0.01 : ℝ) ^ 2))
      ≠ 0.1 * (RHO_AIR * C_AIR * (Real.pi * (0.01 : ℝ) ^ 2)) :=
  impedance_jump_at_cutoff 0.1 0.01 0.4 (by norm_num) (by norm_num) (by norm_num)

/-- C5 counterexample to the claim as stated: for the concrete profile
`[(0,10), (400,100)]` (throat radius 0.01 m, mouth radius 0.1 m, length
0.4 m), the impedance magnitude is not right-continuous at the cutoff
frequency — the above-cutoff branch's limit does not agree with the value
produced by the at/below-cutoff branch. -/
theorem impedance_discontinuous_at_cutoff :
    mouthRadiusOf [((0 : ℝ), (10 : ℝ)), (400, 100)] = 0.1
    ∧ throatRadiusOf [((0 : ℝ), (10 : ℝ)), (400, 100)] = 0.01
    ∧ hornLengthOf [((0 : ℝ), (10 : ℝ)), (400, 100)] = 0.4
    ∧ ¬ Filter.Tendsto (fun f => throatImpedanceMagnitude 0.1 0.01 0.4 f)
        (nhdsWithin (cutoffFrequency 0.1 0.01 0.4)
          (Set.Ioi (cutoffFrequency 0.1 0.01 0.4)))
        (nhds (throatImpedanceMagnitude 0.1 0.01 0.4 (cutoffFrequency 0.1 0.01 0.4))) := by
  refine ⟨by norm_num [mouthRadiusOf], by norm_num [throatRadiusOf],
    by norm_num [hornLengthOf], ?_⟩
  intro h
  have habove := @throatImpedanceMagnitude_tendsto_above 0.1 0.01 0.4
    (by norm_num) (by norm_num) (by norm_num)
  have huniq := tendsto_nhds_unique h habove
  rw [@throatImpedanceMagnitude_at_cutoff 0.1 0.01 0.4
    (by norm_num) (by norm_num) (by norm_num)] at huniq
  have hKpos : 0 < RHO_AIR * C_AIR * (Real.pi * (0.01 : ℝ) ^ 2) := normConst_pos (by norm_num)
  nlinarith

/-- The sweep point pushed at index `i` by `generateFrequencies`:
`f = fMin · (fMax/fMin)^(i/(points-1))` rounded to one decimal
(`Math.round(f * 10) / 10`). -/
noncomputable def sweepPoint (fMin fMax : ℝ) (points : ℕ) (i : ℕ) : ℝ :=
  ((jsRound ((fMin * (fMax / fMin) ^ ((i : ℝ) / ((points : ℝ) - 1))) * 10) : ℤ) : ℝ) / 10

/-- Embedding of `generateFrequencies(fMin, fMax, points)`: the loop
`for (i = 0; i < points; i++)` pushes `points` log-spaced, rounded
frequencies. -/
noncomputable def generateFrequencies (fMin fMax : ℝ) (points : ℕ) : List ℝ :=
  (List.range points).map (sweepPoint fMin fMax points)

/-- Entry `i` of the 500–20000 Hz, 100-point sweep in closed form. -/
theorem sweep_getElem (i : ℕ) (hi : i < 100) :
    (generateFrequencies 500 20000 100)[i]? =
      some (((jsRound ((500 * (40 : ℝ) ^ ((i : ℝ) / 99)) * 10) : ℤ) : ℝ) / 10) := by
  unfold generateFrequencies sweepPoint
  rw [List.getElem?_map, List.getElem?_range hi]
  norm_num

/-- C6 (amended). In the 500–20000 Hz, 100-point log sweep, point `i` is
`500·40^(i/99)` rounded to the nearest 0.1 Hz (the source rounds each
point; interior points are therefore not exactly `500·40^(i/99)`), and the
first and last points are exactly 500 Hz and 20000 Hz. -/
theorem generateFrequencies_scenario :
    (∀ i : ℕ, i < 100 →
      (generateFrequencies 500 20000 100)[i]? =
        some (((jsRound ((500 * (40 : ℝ) ^ ((i : ℝ) / 99)) * 10) : ℤ) : ℝ) / 10))
    ∧ (generateFrequencies 500 20000 100)[0]? = some 500
    ∧ (generateFrequencies 500 20000 100)[99]? = some 20000 := by
  refine ⟨fun i hi => sweep_getElem i hi, ?_, ?_⟩
  · rw [sweep_getElem 0 (by norm_num)]
    rw [show (((0 : ℕ) : ℝ) / 99) = 0 from by norm_num, Real.rpow_zero]
    rw [show (500 * (1 : ℝ)) * 10 = ((5000 : ℤ) : ℝ) from by norm_num, jsRound_intCast]
    norm_num
  · rw [sweep_getElem 99 (by norm_num)]
    rw [show (((99 : ℕ) : ℝ) / 99) = 1 from by norm_num, Real.rpow_one]
    rw [show (500 * (40 : ℝ)) * 10 = ((200000 : ℤ) : ℝ) from by norm_num, jsRound_intCast]
    norm_num

/-- Witness for C6's theorem at index 50. -/
theorem generateFrequencies_scenario_witness :
    (generateFrequencies 500 20000 100)[50]? =
      some (((jsRound ((500 * (40 : ℝ) ^ (((50 : ℕ) : ℝ) / 99)) * 10) : ℤ) : ℝ) / 10) :=
  generateFrequencies_scenario.1 50 (by norm_num)

/-- C6 counterexample to the claim as stated: the generated point at index
1 is a rounded (rational) value, while `500·40^(1/99)` is irrational, so
they differ. -/
theorem generateFrequencies_not_exact_power :
    (generateFrequencies 500 20000 100)[1]? ≠ some (500 * (40 : ℝ) ^ ((1 : ℝ) / 99)) := by
  intro h
  have hA : (generateFrequencies 500 20000 100)[1]? =
      some (((jsRound ((500 * (40 : ℝ) ^ ((1 : ℝ) / 99)) * 10) : ℤ) : ℝ) / 10) := by
    rw [sweep_getElem 1 (by norm_num)]
    norm_num
  rw [hA] at h
  have heq : ((jsRound ((500 * (40 : ℝ) ^ ((1 : ℝ) / 99)) * 10) : ℤ) : ℝ) / 10
      = 500 * (40 : ℝ) ^ ((1 : ℝ) / 99) := Option.some.inj h
  have hx99 : ((40 : ℝ) ^ ((1 : ℝ) / 99)) ^ (99 : ℕ) = ((40 : ℤ) : ℝ) := by
    rw [← Real.rpow_natCast ((40 : ℝ) ^ ((1 : ℝ) / 99)) 99]
    rw [← Real.rpow_mul (by norm_num : (0 : ℝ) ≤ 40)]
    rw [show (1 : ℝ) / 99 * ((99 : ℕ) : ℝ) = 1 from by push_cast; ring]
    rw [Real.rpow_one]
    norm_num
  have hx_gt1 : 1 < (40 : ℝ) ^ ((1 : ℝ) / 99) :=
    (Real.one_lt_rpow_iff_of_pos (by norm_num)).mpr
      (Or.inl ⟨by norm_num, by norm_num⟩)
  have hx_lt2 : (40 : ℝ) ^ ((1 : ℝ) / 99) < 2 := by
    by_contra hcon
    push_neg at hcon
    have hpow : (2 : ℝ) ^ (99 : ℕ) ≤ ((40 : ℝ) ^ ((1 : ℝ) / 99)) ^ (99 : ℕ) :=
      pow_le_pow_left₀ (by norm_num) hcon 99
    rw [hx99] at hpow
    norm_num at hpow
  have hirr : Irrational ((40 : ℝ) ^ ((1 : ℝ) / 99)) := by
    apply irrational_nrt_of_notint_nrt 99 40 (by exact_mod_cast hx99) ?_ (by norm_num)
    rintro ⟨y, hy⟩
    rw [hy] at hx_gt1 hx_lt2
    have hy1 : (1 : ℤ) < y := by exact_mod_cast hx_gt1
    have hy2 : y < 2 := by exact_mod_cast hx_lt2
    omega
  have hirr2 : Irrational (500 * (40 : ℝ) ^ ((1 : ℝ) / 99)) := by
    have hm := hirr.nat_mul (m := 500) (by norm_num)
    have hcast : ((500 : ℕ) : ℝ) = 500 := by norm_num
    rwa [hcast] at hm
  have hnot : ¬ Irrational (((jsRound ((500 * (40 : ℝ) ^ ((1 : ℝ) / 99)) * 10) : ℤ) : ℝ) / 10) := by
    rw [show ((jsRound ((500 * (40 : ℝ) ^ ((1 : ℝ) / 99)) * 10) : ℤ) : ℝ) / 10
        = (((jsRound ((500 * (40 : ℝ) ^ ((1 : ℝ) / 99)) * 10) : ℚ) / 10 : ℚ) : ℝ) from by
      push_cast
      ring]
    exact Rat.not_irrational _
  exact hnot (by rw [heq]; exact hirr2)

/-- The per-segment slope magnitudes `|Δr/Δz|` of `analyze_fractal`,
collected only for segments with `Δz > 0`. -/
noncomputable def derivativesOf (profile : List (ℝ × ℝ)) : List ℝ :=
  (profile.zip profile.tail).filterMap fun pq =>
    if 0 < pq.2.1 - pq.1.1 then some |(pq.2.2 - pq.1.2) / (pq.2.1 - pq.1.1)| else none

/-- Mean of a list of numbers, `reduce((a,b) => a+b, 0) / length`. -/
noncomputable def meanOf (l : List ℝ) : ℝ := l.sum / (l.length : ℝ)

/-- Standard deviation as computed in the source:
`sqrt(reduce((a,b) => a + (b-mean)², 0) / length)`. -/
noncomputable def stdOf (l : List ℝ) : ℝ :=
  Real.sqrt ((l.map fun d => (d - meanOf l) ^ 2).sum / (l.length : ℝ))

/-- The global fractal dimension estimate of `analyze_fractal`: defaults to
1.5, and for profiles with more than 10 samples and at least one valid
segment is `1.0 + min(1.0, cv·2)` with `cv = std/mean` of the slope
magnitudes. -/
noncomputable def globalDimension (profile : List (ℝ × ℝ)) : ℝ :=
  if 10 < profile.length then
    if 0 < (derivativesOf profile).length then
      1 + min 1 (stdOf (derivativesOf profile) / meanOf (derivativesOf profile) * 2)
    else 1.5
  else 1.5

/-- Every collected slope magnitude is nonnegative. -/
theorem derivativesOf_nonneg (profile : List (ℝ × ℝ)) :
    ∀ d ∈ derivativesOf profile, 0 ≤ d := by
  intro d hd
  unfold derivativesOf at hd
  obtain ⟨pq, _, hsome⟩ := List.mem_filterMap.mp hd
  by_cases hc : 0 < pq.2.1 - pq.1.1
  · rw [if_pos hc] at hsome
    have := Option.some.inj hsome
    rw [← this]
    exact abs_nonneg _
  · rw [if_neg hc] at hsome
    cases hsome

/-- The mean of a list of nonnegative numbers is nonnegative. -/
theorem meanOf_nonneg {l : List ℝ} (h : ∀ d ∈ l, 0 ≤ d) : 0 ≤ meanOf l :=
  div_nonneg (List.sum_nonneg h) (Nat.cast_nonneg _)

/-- The standard deviation is nonnegative. -/
theorem stdOf_nonneg (l : List ℝ) : 0 ≤ stdOf l := Real.sqrt_nonneg _

/-- C7. For any profile with at least 2 valid segments, the global
dimension estimate lies in `[1, 2]` (and the 1.5 fallback for short
profiles also does). -/
theorem globalDimension_bounds (profile : List (ℝ × ℝ))
    (h2seg : 2 ≤ (derivativesOf profile).length) :
    1 ≤ globalDimension profile ∧ globalDimension profile ≤ 2 := by
  unfold globalDimension
  by_cases hlen : 10 < profile.length
  · rw [if_pos hlen, if_pos (by omega : 0 < (derivativesOf profile).length)]
    have hcv : 0 ≤ stdOf (derivativesOf profile) / meanOf (derivativesOf profile) :=
      div_nonneg (stdOf_nonneg _) (meanOf_nonneg (derivativesOf_nonneg profile))
    have hmin0 : (0 : ℝ) ≤ min 1
        (stdOf (derivativesOf profile) / meanOf (derivativesOf profile) * 2) :=
      le_min (by norm_num) (by linarith)
    have hmin1 := min_le_left (1 : ℝ)
      (stdOf (derivativesOf profile) / meanOf (derivativesOf profile) * 2)
    constructor <;> linarith
  · rw [if_neg hlen]
    norm_num

/-- Witness for C7 at a 3-sample profile with two valid segments. -/
theorem globalDimension_bounds_witness :
    1 ≤ globalDimension [((0 : ℝ), (1 : ℝ)), (1, 2), (2, 1)]
    ∧ globalDimension [((0 : ℝ), (1 : ℝ)), (1, 2), (2, 1)] ≤ 2 :=
  globalDimension_bounds [((0 : ℝ), (1 : ℝ)), (1, 2), (2, 1)]
    (by norm_num [derivativesOf, List.filterMap_cons])

/-- The relative directivity `d` computed by `polar_response` at an integer
angle (degrees): 1 on axis and for `|x| < 0.001`; otherwise `2·J₁(x)/x`
with the source's piecewise `J₁` approximation (power series for `x < 3`,
asymptotic cosine form otherwise), where `x = ka·sin(angle·π/180)`. -/
noncomputable def polarD (ka : ℝ) (angle : ℕ) : ℝ :=
  if angle = 0 then 1
  else
    let angleRad : ℝ := (angle : ℝ) * Real.pi / 180
    let x := ka * Real.sin angleRad
    if |x| < 0.001 then 1
    else
      let j1 := if x < 3 then (x / 2) * (1 - x * x / 8 + x * x * x * x / 192)
        else Real.sqrt (2 / (Real.pi * x)) * Real.cos (x - 3 * Real.pi / 4)
      2 * j1 / x

/-- One entry `(angle_deg, relative_spl_db)` of the polar pattern:
`spl = 20·log₁₀(max(|d|, 1e-10))`, rounded to one decimal. -/
noncomputable def polarPoint (ka : ℝ) (angle : ℕ) : ℝ × ℝ :=
  ((angle : ℝ),
    ((jsRound ((20 * Real.logb 10 (max |polarD ka angle| 1e-10)) * 10) : ℤ) : ℝ) / 10)

/-- Embedding of the polar pattern loop of `polar_response`: angles 0°, 5°,
…, 180° with `ka = (2π·f/C_AIR)·mouthRadius`. -/
noncomputable def polarData (frequency mouthRadius : ℝ) : List (ℝ × ℝ) :=
  (List.range 37).map fun n =>
    polarPoint (2 * Real.pi * frequency / C_AIR * mouthRadius) (5 * n)

/-- The directivity approximation never exceeds 1 in magnitude on the
sampled angles, for positive `ka`. -/
theorem abs_polarD_le_one {ka : ℝ} (hka : 0 < ka) {angle : ℕ} (hangle : angle ≤ 180) :
    |polarD ka angle| ≤ 1 := by
  unfold polarD
  by_cases h0 : angle = 0
  · rw [if_pos h0]
    norm_num
  rw [if_neg h0]
  have hrad0 : 0 ≤ (angle : ℝ) * Real.pi / 180 := by positivity
  have hradpi : (angle : ℝ) * Real.pi / 180 ≤ Real.pi := by
    have hc : (angle : ℝ) ≤ 180 := by exact_mod_cast hangle
    nlinarith [Real.pi_pos]
  have hx0 : 0 ≤ ka * Real.sin ((angle : ℝ) * Real.pi / 180) :=
    mul_nonneg hka.le (Real.sin_nonneg_of_nonneg_of_le_pi hrad0 hradpi)
  set x := ka * Real.sin ((angle : ℝ) * Real.pi / 180) with hxdef
  by_cases hsmall : |x| < 0.001
  · rw [if_pos hsmall]
    norm_num
  rw [if_neg hsmall]
  push_neg at hsmall
  rw [abs_of_nonneg hx0] at hsmall
  have hxpos : 0 < x := lt_of_lt_of_le (by norm_num) hsmall
  by_cases h3 : x < 3
  · rw [if_pos h3]
    have hd : 2 * ((x / 2) * (1 - x * x / 8 + x * x * x * x / 192)) / x
        = 1 - x * x / 8 + x * x * x * x / 192 := by
      field_simp
      ring
    rw [hd, abs_le]
    have hxx : x * x ≤ 9 := by nlinarith
    constructor
    · nlinarith [sq_nonneg (x * x), mul_nonneg hx0 hx0]
    · nlinarith [mul_nonneg hx0 hx0]
  · rw [if_neg h3]
    push_neg at h3
    have h9 : (9 : ℝ) ≤ Real.pi * x := by nlinarith [Real.pi_gt_three]
    have hsq : Real.sqrt (2 / (Real.pi * x)) ≤ 1 / 2 := by
      have hle : 2 / (Real.pi * x) ≤ 2 / 9 :=
        div_le_div_of_nonneg_left (by norm_num) (by norm_num) h9
      calc Real.sqrt (2 / (Real.pi * x)) ≤ Real.sqrt (2 / 9) := Real.sqrt_le_sqrt hle
        _ ≤ 1 / 2 := by
          rw [show (1 / 2 : ℝ) = Real.sqrt ((1 / 2) ^ 2) from
            (Real.sqrt_sq (by norm_num)).symm]
          exact Real.sqrt_le_sqrt (by norm_num)
    have hsqnn : 0 ≤ Real.sqrt (2 / (Real.pi * x)) := Real.sqrt_nonneg _
    have hcos : |Real.cos (x - 3 * Real.pi / 4)| ≤ 1 := Real.abs_cos_le_one _
    have hj : |Real.sqrt (2 / (Real.pi * x)) * Real.cos (x - 3 * Real.pi / 4)| ≤ 1 / 2 := by
      rw [abs_mul, abs_of_nonneg hsqnn]
      calc Real.sqrt (2 / (Real.pi * x)) * |Real.cos (x - 3 * Real.pi / 4)|
          ≤ (1 / 2) * 1 := mul_le_mul hsq hcos (abs_nonneg _) (by norm_num)
        _ = 1 / 2 := by norm_num
    calc |2 * (Real.sqrt (2 / (Real.pi * x)) * Real.cos (x - 3 * Real.pi / 4)) / x|
        = |2 * (Real.sqrt (2 / (Real.pi * x)) * Real.cos (x - 3 * Real.pi / 4))| / x := by
          rw [abs_div, abs_of_pos hxpos]
      _ = 2 * |Real.sqrt (2 / (Real.pi * x)) * Real.cos (x - 3 * Real.pi / 4)| / x := by
          rw [abs_mul, abs_of_pos (show (0 : ℝ) < 2 from by norm_num)]
      _ ≤ 2 * (1 / 2) / x := by
          apply (div_le_div_iff_of_pos_right hxpos).mpr
          linarith
      _ = 1 / x := by ring
      _ ≤ 1 / 3 := div_le_div_of_nonneg_left (by norm_num) (by norm_num) h3
      _ ≤ 1 := by norm_num

/-- Every sampled polar level is at most 0 dB, for positive `ka`. -/
theorem polarPoint_level_nonpos {ka : ℝ} (hka : 0 < ka) {angle : ℕ}
    (hangle : angle ≤ 180) : (polarPoint ka angle).2 ≤ 0 := by
  unfold polarPoint
  have habs := abs_polarD_le_one hka hangle
  have hmax1 : max |polarD ka angle| 1e-10 ≤ 1 := max_le habs (by norm_num)
  have hmax0 : (0 : ℝ) ≤ max |polarD ka angle| 1e-10 :=
    le_trans (by norm_num) (le_max_right _ _)
  have hlog : Real.logb 10 (max |polarD ka angle| 1e-10) ≤ 0 :=
    Real.logb_nonpos (by norm_num) hmax0 hmax1
  have hspl : (20 * Real.logb 10 (max |polarD ka angle| 1e-10)) * 10 ≤ 0 := by nlinarith
  have hjs := jsRound_nonpos hspl
  have hcast : ((jsRound ((20 * Real.logb 10 (max |polarD ka angle| 1e-10)) * 10) : ℤ) : ℝ)
      ≤ 0 := by exact_mod_cast hjs
  simp only
  linarith

/-- The on-axis entry of the polar pattern is `(0°, 0 dB)`. -/
theorem polarPoint_zero (ka : ℝ) : polarPoint ka 0 = (0, 0) := by
  unfold polarPoint polarD
  rw [if_pos rfl]
  rw [show max |(1 : ℝ)| 1e-10 = 1 from by rw [abs_one]; exact max_eq_left (by norm_num)]
  rw [Real.logb_one]
  rw [show (20 * (0 : ℝ)) * 10 = ((0 : ℤ) : ℝ) from by norm_num, jsRound_intCast]
  norm_num

/-- C10. For every positive evaluation frequency and positive mouth radius,
every sampled polar level is at most 0 dB, and the on-axis sample is
`(0°, 0 dB)` — hence the on-axis sample attains the maximum of the
pattern. -/
theorem polar_levels_nonpos (frequency mouthRadius : ℝ)
    (hf : 0 < frequency) (hr : 0 < mouthRadius) :
    (polarData frequency mouthRadius).head? = some (0, 0)
    ∧ ∀ p ∈ polarData frequency mouthRadius, p.2 ≤ 0 := by
  have hka : 0 < 2 * Real.pi * frequency / C_AIR * mouthRadius := by
    unfold C_AIR
    positivity
  constructor
  · rw [polarData, show (37 : ℕ) = 36 + 1 from rfl, head?_map_range]
    rw [show 5 * 0 = 0 from rfl, polarPoint_zero]
  · intro p hp
    rw [polarData] at hp
    obtain ⟨n, hn, rfl⟩ := List.mem_map.mp hp
    have hn36 : n ≤ 36 := by
      have := List.mem_range.mp hn
      omega
    exact polarPoint_level_nonpos hka (by omega)

/-- Witness for C10 at 1000 Hz and mouth radius 0.1 m, instantiated at the
90° sample. -/
theorem polar_levels_nonpos_witness :
    (polarData 1000 0.1).head? = some (0, 0)
    ∧ (polarPoint (2 * Real.pi * 1000 / C_AIR * 0.1) (5 * 18)).2 ≤ 0 :=
  ⟨(polar_levels_nonpos 1000 0.1 (by norm_num) (by norm_num)).1,
    (polar_levels_nonpos 1000 0.1 (by norm_num) (by norm_num)).2
      (polarPoint (2 * Real.pi * 1000 / C_AIR * 0.1) (5 * 18))
      (by unfold polarData
          exact List.mem_map_of_mem _ (List.mem_range.mpr (by norm_num)))⟩

/-- A row of the `compare_geometries` result: either the metrics of a
loadable candidate or the error record produced by its `catch`. -/
inductive CompareEntry where
  | ok (path : String) (throat_mm mouth_mm length_mm smoothness avgReflection score : ℝ)
  | err (path : String) (message : String)

/-- Impedance smoothness score `max(0, 1 - std/mean)`. -/
noncomputable def smoothnessOf (mags : List ℝ) : ℝ := max 0 (1 - stdOf mags / meanOf mags)

/-- The per-candidate body of `compare_geometries`: a failed profile load
becomes an error row; a loaded profile is run through the 500–20000 Hz
50-point sweep and scored with `smoothness · (1 - avgReflection)`, all
reported values rounded to 3 decimals. -/
noncomputable def candidateEntry (path : String) :
    Option (List (ℝ × ℝ)) → CompareEntry
  | none => CompareEntry.err path "load failure"
  | some profile =>
    let imp := computeImpedanceInline profile (generateFrequencies 500 20000 50)
    let smoothness := smoothnessOf imp.impedance_magnitude
    let avgReflection := meanOf imp.reflection_coefficient
    CompareEntry.ok path
      (((profile.head?.map Prod.snd).getD 0) * 2)
      (((profile.getLast?.map Prod.snd).getD 0) * 2)
      ((profile.getLast?.map Prod.fst).getD 0)
      (((jsRound (smoothness * 1000) : ℤ) : ℝ) / 1000)
      (((jsRound (avgReflection * 1000) : ℤ) : ℝ) / 1000)
      (((jsRound (smoothness * (1 - avgReflection) * 1000) : ℤ) : ℝ) / 1000)

/-- The path/score projection used for ranking: only `ok` rows rank. -/
def entryScore : CompareEntry → Option (String × ℝ)
  | CompareEntry.ok p _ _ _ _ _ s => some (p, s)
  | CompareEntry.err _ _ => none

/-- The result record of `compare_geometries`. -/
structure CompareOutput where
  comparisons : List CompareEntry
  ranking : List String
  best : Option String

/-- Embedding of `compare_geometries`: every candidate (the load outcome of
each profile path is modelled as an `Option`) is mapped to a row; rows with
metrics are sorted by descending score to give the ranking; error rows stay
in `comparisons` only. -/
noncomputable def compareGeometries
    (candidates : List (String × Option (List (ℝ × ℝ)))) : CompareOutput :=
  let results := candidates.map fun c => candidateEntry c.1 c.2
  let ranked := (results.filterMap entryScore).mergeSort fun a b => decide (b.2 ≤ a.2)
  { comparisons := results
    ranking := ranked.map Prod.fst
    best := ranked.head?.map Prod.fst }

/-- C8. In a 2–5 candidate comparison, a candidate whose profile cannot be
loaded contributes an error row to `comparisons` (which keeps one row per
candidate, so the failure aborts nothing), every loadable candidate still
contributes its metrics row, and every ranked path comes from a loadable
candidate — the failed candidate is excluded from the ranking. -/
theorem compare_partial_failure
    (cands : List (String × Option (List (ℝ × ℝ)))) (p : String)
    (_h2 : 2 ≤ cands.length) (_h5 : cands.length ≤ 5)
    (hmem : (p, (none : Option (List (ℝ × ℝ)))) ∈ cands) :
    CompareEntry.err p "load failure" ∈ (compareGeometries cands).comparisons
    ∧ (compareGeometries cands).comparisons.length = cands.length
    ∧ (∀ q prof, (q, some prof) ∈ cands →
        candidateEntry q (some prof) ∈ (compareGeometries cands).comparisons)
    ∧ (∀ r ∈ (compareGeometries cands).ranking,
        ∃ q prof, (q, some prof) ∈ cands ∧ r = q) := by
  refine ⟨?_, ?_, ?_, ?_⟩
  · exact List.mem_map.mpr ⟨(p, none), hmem, rfl⟩
  · simp [compareGeometries]
  · intro q prof hq
    exact List.mem_map.mpr ⟨(q, some prof), hq, rfl⟩
  · intro r hr
    simp only [compareGeometries] at hr
    obtain ⟨e, he, heq⟩ := List.mem_map.mp hr
    have he2 : e ∈ (cands.map fun c => candidateEntry c.1 c.2).filterMap entryScore :=
      List.mem_mergeSort.mp he
    obtain ⟨entry, hentry, hscore⟩ := List.mem_filterMap.mp he2
    obtain ⟨c, hc, hcentry⟩ := List.mem_map.mp hentry
    rcases c with ⟨q, loaded⟩
    cases loaded with
    | none =>
      rw [← hcentry] at hscore
      simp [candidateEntry, entryScore] at hscore
    | some prof =>
      refine ⟨q, prof, hc, ?_⟩
      rw [← hcentry] at hscore
      simp only [candidateEntry, entryScore] at hscore
      have := Option.some.inj hscore
      rw [← heq, ← this]

/-- Witness for C8: one loadable candidate and one failing candidate,
instantiated at the failing path and at the loadable candidate. -/
theorem compare_partial_failure_witness :
    CompareEntry.err "b" "load failure" ∈
      (compareGeometries
        [("a", some [((0 : ℝ), (10 : ℝ)), (400, 100)]), ("b", none)]).comparisons
    ∧ (compareGeometries
        [("a", some [((0 : ℝ), (10 : ℝ)), (400, 100)]), ("b", none)]).comparisons.length
      = ([("a", some [((0 : ℝ), (10 : ℝ)), (400, 100)]), ("b", none)]
          : List (String × Option (List (ℝ × ℝ)))).length
    ∧ candidateEntry "a" (some [((0 : ℝ), (10 : ℝ)), (400, 100)]) ∈ (compareGeometries
        [("a", some [((0 : ℝ), (10 : ℝ)), (400, 100)]), ("b", none)]).comparisons := by
  have h := compare_partial_failure
    [("a", some [((0 : ℝ), (10 : ℝ)), (400, 100)]), ("b", none)] "b"
    (by norm_num) (by norm_num) (by simp)
  exact ⟨h.1, h.2.1, h.2.2.1 "a" [((0 : ℝ), (10 : ℝ)), (400, 100)] (by simp)⟩
end SFH
